import Mathlib

set_option maxHeartbeats 1000000
set_option maxRecDepth 8000

/-!
Verification of the per-byte recovery algorithm in src/speculate_and_leak.cpp.

The hardware timing channel is modelled as an oracle: `lat run i` is the
latency the code would measure for cache line `i` on round `run`.  Everything
else (`get_top_two`, the scoring pass, the mean computation, the round loop,
the training-loop index selection and its architectural guard) is embedded
directly from the source.
-/

namespace SpectreLeak

/-- The mistraining control value `*slow_size` (line 59): always 1. -/
def slow_size : Int := 1

/-- Line 79: `auto local_index = ((i + 1) % 10) ? 0 : index;`.
C truthiness: a nonzero remainder selects 0, a zero remainder selects `index`. -/
def local_index (index : Int) (i : Nat) : Int :=
  if (i + 1) % 10 = 0 then index else 0

/-- Line 73: the training loop runs `i = 0 .. 499`. -/
def trainIters : List Nat := List.range 500

/-- Line 90: `int shuffled_i = ((i * 167) + 13) & 0xff;` (mask = mod 256). -/
def shuffled (i : Nat) : Nat := (i * 167 + 13) % 256

/-- Lines 89–97: the order in which the 256 timing entries are visited. -/
def visitOrder : List Nat := (List.range 256).map shuffled

/-- The visit order used on round `run`: the code recomputes the same
constant permutation inside every round. -/
def visitOrderAt (run : Nat) : List Nat := visitOrder

/-- Lines 89–97 as writes into the `times` array (value-initialized to 0):
entry `shuffled i` receives the measured latency of line `shuffled i`. -/
def timesAfter (lat : Nat → Int) : Nat → Int :=
  visitOrder.foldl (fun t j => Function.update t j (lat j)) (fun _ => 0)

/-- Narrowing of a wider integer to a 32-bit C `int` (two's complement). -/
def wrap32 (x : Int) : Int := (x + 2147483648) % 4294967296 - 2147483648

/-- Line 99: `std::accumulate(times.begin(), times.end(), 0)`.  The literal
`0` makes the accumulator an `int`, so every partial sum is narrowed to
32 bits before the next addition. -/
def accumInt (l : List Int) : Int := l.foldl (fun acc t => wrap32 (acc + t)) 0

/-- Line 99: `t_avg`, the accumulated sum divided by `NUM_LINES` with C++
`int` division (truncation toward zero). -/
def t_avg (lat : Nat → Int) : Int := Int.tdiv (accumInt ((List.range 256).map lat)) 256

/-- The mean as the spec words it ("the mean latency across all 256
measurements"): the exact sum of the samples, no narrowing, divided by 256. -/
def specMean (lat : Nat → Int) : Int := Int.tdiv (((List.range 256).map lat).sum) 256

/-- Lines 102–104: one round's scoring pass;
`if (times[i] * 2 < t_avg && i != private_data[0]) ++scores[i];`. -/
def roundScores (pd0 : Nat) (lat : Nat → Int) (s : Nat → Int) : Nat → Int :=
  fun i => if i < 256 ∧ lat i * 2 < t_avg lat ∧ i ≠ pd0 then s i + 1 else s i

/-- Lines 29–34: the loop body of `get_top_two`.  `s.1` is iterator `j`
(best), `s.2` is iterator `k` (second); `std::tie(k, j) = std::tie(j, i)`. -/
def topStep (v : Nat → Int) (s : Nat × Nat) (i : Nat) : Nat × Nat :=
  if v i > v s.1 then (i, s.1) else if v i > v s.2 then (s.1, i) else s

/-- Lines 25–36: `get_top_two` over entries `0 .. n-1`, both iterators
starting at `begin`. -/
def topTwoN (v : Nat → Int) (n : Nat) : Nat × Nat :=
  (List.range n).foldl (topStep v) (0, 0)

/-- Scores after `r` completed rounds (loop at line 66, scoring at 102–104).
`pd0` is `private_data[0]`; `lat r i` is the latency measured for line `i`
on round `r`. -/
def scoresAfter (pd0 : Nat) (lat : Nat → Nat → Int) : Nat → Nat → Int
  | 0 => fun _ => 0
  | r + 1 => roundScores pd0 (lat r) (scoresAfter pd0 lat r)

/-- Line 109: `*top.first > (*top.second) * 2 + 200` on a score vector. -/
def exitCond (s : Nat → Int) : Prop :=
  s (topTwoN s 256).1 > s (topTwoN s 256).2 * 2 + 200

instance decExitCond (s : Nat → Int) : Decidable (exitCond s) :=
  inferInstanceAs (Decidable (_ > _))

/-- Lines 66–114: the round loop.  `fuel` is the number of rounds left
(1000 at entry), `run` the current round index, `top` the carried pair of
best/second indices.  The Bool is `true` for the early high-confidence
return (line 110) and `false` for the 1000-round cap, which prints the
distinct low-confidence marker before returning (lines 113–114). -/
def leakAux (pd0 : Nat) (lat : Nat → Nat → Int) :
    Nat → Nat → (Nat → Int) → Nat × Nat → Nat × Bool
  | 0, _, _, top => (top.1, false)
  | fuel + 1, run, s, _ =>
    let s2 := roundScores pd0 (lat run) s
    if exitCond s2 then ((topTwoN s2 256).1, true)
    else leakAux pd0 lat fuel (run + 1) s2 (topTwoN s2 256)

/-- Lines 38–115: `leak_byte`, with the hardware timing abstracted into the
oracle `lat`.  Scores start at zero, `top` starts as `(begin, begin)`. -/
def leak_byte (pd0 : Nat) (lat : Nat → Nat → Int) : Nat × Bool :=
  leakAux pd0 lat 1000 0 (fun _ => 0) (0, 0)

/-! ### Spec-side predicates (from the spec's words, for comparison) -/

/-- `j` is the earliest index of maximal value among `0 .. n-1`
(ties broken by earliest index in scan order). -/
def isEarliestMax (v : Nat → Int) (n j : Nat) : Prop :=
  j < n ∧ (∀ i, i < n → v i ≤ v j) ∧ ∀ i, i < j → v i < v j

/-- `k` is the earliest index of maximal value among `0 .. n-1` once `j`
is removed. -/
def isEarliestMaxExcl (v : Nat → Int) (n j k : Nat) : Prop :=
  k < n ∧ k ≠ j ∧ (∀ i, i < n → i ≠ j → v i ≤ v k) ∧ ∀ i, i < k → i ≠ j → v i < v k

/-- The spec's top-two property of a returned pair: best is a maximal
element (earliest on ties) and second-best is a maximal element of the
remaining entries (earliest on ties). -/
def specTopTwo (v : Nat → Int) (p : Nat × Nat) : Prop :=
  isEarliestMax v 256 p.1 ∧ isEarliestMaxExcl v 256 p.1 p.2

/-- The spec's score-gap condition stated with the true best and true
second-best of the score vector. -/
def specGap (s : Nat → Int) : Prop :=
  ∃ j k, j < 256 ∧ k < 256 ∧ j ≠ k ∧ (∀ i, i < 256 → s i ≤ s j) ∧
    (∀ i, i < 256 → i ≠ j → s i ≤ s k) ∧ s j > s k * 2 + 200

instance decEarliestMax (v : Nat → Int) (n j : Nat) : Decidable (isEarliestMax v n j) := by
  unfold isEarliestMax; infer_instance

instance decEarliestMaxExcl (v : Nat → Int) (n j k : Nat) :
    Decidable (isEarliestMaxExcl v n j k) := by
  unfold isEarliestMaxExcl; infer_instance

instance decSpecTopTwo (v : Nat → Int) (p : Nat × Nat) : Decidable (specTopTwo v p) := by
  unfold specTopTwo; infer_instance

/-! ### Concrete timing oracles used as witnesses and counterexamples -/

/-- A sample vector with value `a` at index `j` and `b` everywhere else. -/
def oneAt (j : Nat) (a b : Int) : Nat → Int := fun i => if i = j then a else b

/-- One round of timings where only line 0 reads fast. -/
def latFast : Nat → Int := oneAt 0 0 100

/-- One round of timings where only line 5 reads fast. -/
def latFast5 : Nat → Int := oneAt 5 0 100

/-- One round of timings where every line reads slow. -/
def latSlow : Nat → Int := fun _ => 100

/-- A 64-bit sample vector whose exact sum does not fit in 32 bits. -/
def latBig : Nat → Int := oneAt 0 2147483648 0

/-- Every round: only line 0 fast. -/
def latFamFast : Nat → Nat → Int := fun _ => latFast

/-- Every round: all lines slow. -/
def latFamSlow : Nat → Nat → Int := fun _ => latSlow

/-- A score vector whose maximum sits at index 0. -/
def sc1 : Nat → Int := fun i => if i = 0 then 1 else 0

/-- A score vector with distinct best (index 2) and second (index 9). -/
def vW : Nat → Int := fun i => if i = 2 then 5 else if i = 9 then 3 else 0

/-! ### Arithmetic helper lemmas -/

lemma wrap32_eq_self (x : Int) (h0 : 0 ≤ x) (h1 : x < 2147483648) : wrap32 x = x := by
  unfold wrap32
  omega

lemma sum_nonneg_int : ∀ l : List Int, (∀ x, x ∈ l → 0 ≤ x) → 0 ≤ l.sum
  | [], _ => le_refl 0
  | x :: l, h => by
    rw [List.sum_cons]
    have h1 := sum_nonneg_int l (fun y hy => h y (List.mem_cons_of_mem x hy))
    have h2 := h x (List.mem_cons_self x l)
    omega

lemma accum_eq_sum : ∀ (l : List Int) (acc : Int), 0 ≤ acc → (∀ x, x ∈ l → 0 ≤ x) →
    acc + l.sum < 2147483648 → l.foldl (fun a t => wrap32 (a + t)) acc = acc + l.sum
  | [], acc, _, _, _ => by simp
  | x :: l, acc, ha, hx, hs => by
    rw [List.sum_cons] at hs
    have hx0 : 0 ≤ x := hx x (List.mem_cons_self x l)
    have hl : ∀ y, y ∈ l → 0 ≤ y := fun y hy => hx y (List.mem_cons_of_mem x hy)
    have hls : 0 ≤ l.sum := sum_nonneg_int l hl
    have hw : wrap32 (acc + x) = acc + x := wrap32_eq_self _ (by omega) (by omega)
    rw [List.foldl_cons, hw, accum_eq_sum l (acc + x) (by omega) hl (by omega),
      List.sum_cons]
    ring

/-! ### Facts about the measurement pass -/

lemma foldl_update_not_mem (lat : Nat → Int) :
    ∀ (l : List Nat) (t : Nat → Int) (j : Nat), j ∉ l →
      (l.foldl (fun t2 j2 => Function.update t2 j2 (lat j2)) t) j = t j
  | [], _, _, _ => rfl
  | a :: l, t, j, h => by
    have h1 : j ≠ a := fun e => h (e ▸ List.mem_cons_self a l)
    have h2 : j ∉ l := fun e => h (List.mem_cons_of_mem a e)
    rw [List.foldl_cons, foldl_update_not_mem lat l _ j h2, Function.update_noteq h1]

lemma foldl_update_mem (lat : Nat → Int) :
    ∀ (l : List Nat) (t : Nat → Int) (j : Nat), j ∈ l →
      (l.foldl (fun t2 j2 => Function.update t2 j2 (lat j2)) t) j = lat j
  | [], _, j, h => absurd h (List.not_mem_nil j)
  | a :: l, t, j, h => by
    by_cases hl : j ∈ l
    · rw [List.foldl_cons]
      exact foldl_update_mem lat l _ j hl
    · have hja : j = a := by
        rcases List.mem_cons.mp h with h2 | h2
        · exact h2
        · exact absurd h2 hl
      subst hja
      rw [List.foldl_cons, foldl_update_not_mem lat l _ j hl, Function.update_same]

/-! ### Facts about the scoring pass -/

lemma roundScores_ge (pd0 : Nat) (lat s : Nat → Int) (i : Nat) :
    s i ≤ roundScores pd0 lat s i := by
  unfold roundScores
  split <;> omega

lemma roundScores_le (pd0 : Nat) (lat s : Nat → Int) (i : Nat) :
    roundScores pd0 lat s i ≤ s i + 1 := by
  unfold roundScores
  split <;> omega

lemma scoresAfter_nonneg (pd0 : Nat) (lat : Nat → Nat → Int) :
    ∀ r i, 0 ≤ scoresAfter pd0 lat r i
  | 0, _ => le_refl 0
  | r + 1, i =>
    le_trans (scoresAfter_nonneg pd0 lat r i)
      (roundScores_ge pd0 (lat r) (scoresAfter pd0 lat r) i)

lemma scoresAfter_le_int (pd0 : Nat) (lat : Nat → Nat → Int) :
    ∀ r i, scoresAfter pd0 lat r i ≤ (r : Int)
  | 0, i => le_refl 0
  | r + 1, i => by
    have h1 := roundScores_le pd0 (lat r) (scoresAfter pd0 lat r) i
    have h2 := scoresAfter_le_int pd0 lat r i
    have : scoresAfter pd0 lat (r + 1) i ≤ (r : Int) + 1 := le_trans h1 (by omega)
    push_cast
    exact this

/-! ### The get_top_two invariant -/

lemma topTwoN_zero (v : Nat → Int) : topTwoN v 0 = (0, 0) := rfl

lemma topTwoN_succ (v : Nat → Int) (n : Nat) :
    topTwoN v (n + 1) = topStep v (topTwoN v n) n := by
  unfold topTwoN
  rw [List.range_succ, List.foldl_append, List.foldl_cons, List.foldl_nil]

lemma topTwoN_inv (v : Nat → Int) : ∀ n, 1 ≤ n →
    ((∀ i, i < n → v i ≤ v 0) ∧ topTwoN v n = (0, 0))
    ∨ (v 0 < v (topTwoN v n).1 ∧ isEarliestMax v n (topTwoN v n).1
        ∧ isEarliestMaxExcl v n (topTwoN v n).1 (topTwoN v n).2) := by
  intro n hn
  induction n with
  | zero => omega
  | succ m ih =>
    rcases Nat.eq_zero_or_pos m with hm | hm
    · subst hm
      left
      refine ⟨?_, ?_⟩
      · intro i hi
        have : i = 0 := by omega
        subst this
        exact le_refl _
      · rw [topTwoN_succ, topTwoN_zero]
        unfold topStep
        simp [lt_irrefl]
    · have IH := ih hm
      rw [topTwoN_succ]
      rcases IH with ⟨hA, hEq⟩ | ⟨hlt, hMax, hExcl⟩
      · rw [hEq]
        unfold topStep
        dsimp only
        by_cases h : v m > v 0
        · rw [if_pos h]
          right
          dsimp only
          refine ⟨h, ⟨by omega, ?_, ?_⟩, ⟨by omega, by omega, ?_, ?_⟩⟩
          · intro i hi
            by_cases him : i = m
            · subst him; exact le_refl _
            · exact le_of_lt (lt_of_le_of_lt (hA i (by omega)) h)
          · intro i hi
            exact lt_of_le_of_lt (hA i hi) h
          · intro i hi hne
            exact hA i (by omega)
          · intro i hi _
            exact absurd hi (Nat.not_lt_zero i)
        · rw [if_neg h, if_neg h]
          left
          refine ⟨?_, rfl⟩
          intro i hi
          by_cases him : i = m
          · subst him; exact not_lt.mp h
          · exact hA i (by omega)
      · obtain ⟨hjm, hmax, hstrict⟩ := hMax
        obtain ⟨hkm, hkj, hk2, hk3⟩ := hExcl
        unfold topStep
        by_cases h1 : v m > v (topTwoN v m).1
        · rw [if_pos h1]
          right
          dsimp only
          refine ⟨lt_trans hlt h1, ⟨by omega, ?_, ?_⟩, ⟨by omega, by omega, ?_, ?_⟩⟩
          · intro i hi
            by_cases him : i = m
            · subst him; exact le_refl _
            · exact le_of_lt (lt_of_le_of_lt (hmax i (by omega)) h1)
          · intro i hi
            exact lt_of_le_of_lt (hmax i hi) h1
          · intro i hi hne
            exact hmax i (by omega)
          · intro i hi hne
            exact hstrict i hi
        · by_cases h2 : v m > v (topTwoN v m).2
          · rw [if_neg h1, if_pos h2]
            right
            dsimp only
            refine ⟨hlt, ⟨by omega, ?_, hstrict⟩, ⟨by omega, by omega, ?_, ?_⟩⟩
            · intro i hi
              by_cases him : i = m
              · subst him; exact not_lt.mp h1
              · exact hmax i (by omega)
            · intro i hi hne
              by_cases him : i = m
              · subst him; exact le_refl _
              · exact le_of_lt (lt_of_le_of_lt (hk2 i (by omega) hne) h2)
            · intro i hi hne
              exact lt_of_le_of_lt (hk2 i (by omega) hne) h2
          · rw [if_neg h1, if_neg h2]
            right
            refine ⟨hlt, ⟨by omega, ?_, hstrict⟩, ⟨by omega, hkj, ?_, hk3⟩⟩
            · intro i hi
              by_cases him : i = m
              · subst him; exact not_lt.mp h1
              · exact hmax i (by omega)
            · intro i hi hne
              by_cases him : i = m
              · subst him; exact not_lt.mp h2
              · exact hk2 i (by omega) hne

lemma topTwoN_fst_max (v : Nat → Int) (n : Nat) (hn : 1 ≤ n) :
    isEarliestMax v n (topTwoN v n).1 := by
  rcases topTwoN_inv v n hn with ⟨hA, hEq⟩ | ⟨_, hMax, _⟩
  · rw [hEq]
    exact ⟨hn, hA, fun i hi => absurd hi (Nat.not_lt_zero i)⟩
  · exact hMax

lemma topTwoN_caseA (v : Nat → Int) (n : Nat) (hn : 1 ≤ n)
    (h : ∀ i, i < n → v i ≤ v 0) : topTwoN v n = (0, 0) := by
  rcases topTwoN_inv v n hn with ⟨_, hEq⟩ | ⟨hlt, hMax, _⟩
  · exact hEq
  · exact absurd (h _ hMax.1) (not_le.mpr hlt)

lemma topTwoN_caseB (v : Nat → Int) (n : Nat) (hn : 1 ≤ n)
    (h : ∃ i, i < n ∧ v 0 < v i) :
    v 0 < v (topTwoN v n).1 ∧ isEarliestMax v n (topTwoN v n).1
      ∧ isEarliestMaxExcl v n (topTwoN v n).1 (topTwoN v n).2 := by
  rcases topTwoN_inv v n hn with ⟨hA, _⟩ | hB
  · obtain ⟨i, hi, hv⟩ := h
    exact absurd (hA i hi) (not_le.mpr hv)
  · exact hB

/-! ### The exit condition against the spec's gap condition -/

lemma exitCond_specGap (s : Nat → Int) (hnn : ∀ i, i < 256 → 0 ≤ s i)
    (h : exitCond s) :
    (∃ i, 0 < i ∧ i < 256 ∧ s 0 < s i) ∧ specGap s := by
  by_cases hB : ∃ i, i < 256 ∧ s 0 < s i
  · obtain ⟨hlt, hMax, hExcl⟩ := topTwoN_caseB s 256 (by omega) hB
    obtain ⟨hj, hmax, _⟩ := hMax
    obtain ⟨hk, hkj, hk2, _⟩ := hExcl
    have hj0 : 0 < (topTwoN s 256).1 := by
      rcases Nat.eq_zero_or_pos (topTwoN s 256).1 with h0 | h0
      · rw [h0] at hlt
        exact absurd hlt (lt_irrefl _)
      · exact h0
    exact ⟨⟨(topTwoN s 256).1, hj0, hj, hlt⟩,
      (topTwoN s 256).1, (topTwoN s 256).2, hj, hk, Ne.symm hkj, hmax, hk2, h⟩
  · push_neg at hB
    have hEq := topTwoN_caseA s 256 (by omega) (fun i hi => hB i hi)
    unfold exitCond at h
    rw [hEq] at h
    dsimp only at h
    have := hnn 0 (by omega)
    linarith

lemma specGap_exitCond (s : Nat → Int) (hnn : ∀ i, i < 256 → 0 ≤ s i)
    (hex : ∃ i, 0 < i ∧ i < 256 ∧ s 0 < s i) (hg : specGap s) : exitCond s := by
  obtain ⟨i, _, hi, hv⟩ := hex
  obtain ⟨_, hMax, hExcl⟩ := topTwoN_caseB s 256 (by omega) ⟨i, hi, hv⟩
  obtain ⟨hjn, hmax, _⟩ := hMax
  obtain ⟨hkn, hkj, _, _⟩ := hExcl
  obtain ⟨j2, k2, hj2, hk2n, hjk2, hmax2, hrest2, hgt2⟩ := hg
  have hjj : s (topTwoN s 256).1 = s j2 := le_antisymm (hmax2 _ hjn) (hmax _ hj2)
  unfold exitCond
  by_cases hcase : j2 = (topTwoN s 256).1
  · have hks : s (topTwoN s 256).2 ≤ s k2 :=
      hrest2 _ hkn (fun e => hkj (e.trans hcase))
    rw [hcase] at hgt2
    linarith
  · have h1 : s (topTwoN s 256).1 ≤ s k2 := hrest2 _ hjn (fun e => hcase e.symm)
    have h2 : 0 ≤ s j2 := hnn j2 hj2
    linarith

lemma no_early_exit (pd0 : Nat) (lat : Nat → Nat → Int) (r : Nat) (hr : r ≤ 200) :
    ¬ exitCond (scoresAfter pd0 lat r) := by
  intro h
  have hnn : ∀ i, i < 256 → 0 ≤ scoresAfter pd0 lat r i :=
    fun i _ => scoresAfter_nonneg pd0 lat r i
  obtain ⟨_, hgap⟩ := exitCond_specGap _ hnn h
  obtain ⟨j, k, hj, hk, _, _, _, hgt⟩ := hgap
  have h1 : scoresAfter pd0 lat r j ≤ (r : Int) := scoresAfter_le_int pd0 lat r j
  have h2 : 0 ≤ scoresAfter pd0 lat r k := scoresAfter_nonneg pd0 lat r k
  have h3 : (r : Int) ≤ 200 := by exact_mod_cast hr
  linarith

/-! ### The round loop -/

lemma leakAux_succ (pd0 : Nat) (lat : Nat → Nat → Int) (fuel run : Nat)
    (s : Nat → Int) (top : Nat × Nat) :
    leakAux pd0 lat (fuel + 1) run s top =
      if exitCond (roundScores pd0 (lat run) s) then
        ((topTwoN (roundScores pd0 (lat run) s) 256).1, true)
      else leakAux pd0 lat fuel (run + 1) (roundScores pd0 (lat run) s)
        (topTwoN (roundScores pd0 (lat run) s) 256) := rfl

lemma leakAux_no_exit (pd0 : Nat) (lat : Nat → Nat → Int) :
    ∀ fuel run top, run + fuel = 1000 → 1 ≤ fuel →
      (∀ r, run ≤ r → r < 1000 → ¬ exitCond (scoresAfter pd0 lat (r + 1))) →
      leakAux pd0 lat fuel run (scoresAfter pd0 lat run) top =
        ((topTwoN (scoresAfter pd0 lat 1000) 256).1, false) := by
  intro fuel
  induction fuel with
  | zero =>
    intro run top h h1 _
    omega
  | succ m ih =>
    intro run top hsum _ hno
    have hrun : run < 1000 := by omega
    have hs2 : roundScores pd0 (lat run) (scoresAfter pd0 lat run) =
        scoresAfter pd0 lat (run + 1) := rfl
    rw [leakAux_succ, hs2, if_neg (hno run le_rfl hrun)]
    rcases Nat.eq_zero_or_pos m with hm | hm
    · subst hm
      have h1000 : run + 1 = 1000 := by omega
      rw [h1000]
      rfl
    · exact ih (run + 1) _ (by omega) hm (fun r hr hr2 => hno r (by omega) hr2)

lemma leakAux_exit (pd0 : Nat) (lat : Nat → Nat → Int) :
    ∀ fuel run top r, run + fuel = 1000 → run ≤ r → r < 1000 →
      (∀ q, run ≤ q → q < r → ¬ exitCond (scoresAfter pd0 lat (q + 1))) →
      exitCond (scoresAfter pd0 lat (r + 1)) →
      leakAux pd0 lat fuel run (scoresAfter pd0 lat run) top =
        ((topTwoN (scoresAfter pd0 lat (r + 1)) 256).1, true) := by
  intro fuel
  induction fuel with
  | zero =>
    intro run top r h hrr hr1000 _ _
    omega
  | succ m ih =>
    intro run top r hsum hrr hr1000 hmin hexit
    have hs2 : roundScores pd0 (lat run) (scoresAfter pd0 lat run) =
        scoresAfter pd0 lat (run + 1) := rfl
    rw [leakAux_succ, hs2]
    rcases Nat.eq_or_lt_of_le hrr with heq | hlt
    · subst heq
      rw [if_pos hexit]
    · rw [if_neg (hmin run le_rfl hlt)]
      exact ih (run + 1) _ r (by omega) hlt hr1000
        (fun q hq hq2 => hmin q (by omega) hq2) hexit

lemma leak_byte_flag (pd0 : Nat) (lat : Nat → Nat → Int) :
    (leak_byte pd0 lat).2 = true ↔
      ∃ r, r < 1000 ∧ exitCond (scoresAfter pd0 lat (r + 1)) := by
  constructor
  · intro h
    by_contra hne
    push_neg at hne
    have hlb : leak_byte pd0 lat = ((topTwoN (scoresAfter pd0 lat 1000) 256).1, false) :=
      leakAux_no_exit pd0 lat 1000 0 (0, 0) (by omega) (by omega)
        (fun r _ hr => hne r hr)
    rw [hlb] at h
    simp at h
  · rintro ⟨r, hr, hex⟩
    have hexists : ∃ q, exitCond (scoresAfter pd0 lat (q + 1)) := ⟨r, hex⟩
    have hr0 : exitCond (scoresAfter pd0 lat (Nat.find hexists + 1)) :=
      Nat.find_spec hexists
    have hmin : ∀ q, q < Nat.find hexists →
        ¬ exitCond (scoresAfter pd0 lat (q + 1)) :=
      fun q hq => Nat.find_min hexists hq
    have hr0r : Nat.find hexists ≤ r := Nat.find_min' hexists hex
    have hlb : leak_byte pd0 lat =
        ((topTwoN (scoresAfter pd0 lat (Nat.find hexists + 1)) 256).1, true) :=
      leakAux_exit pd0 lat 1000 0 (0, 0) (Nat.find hexists) (by omega) (by omega)
        (by omega) (fun q _ hq => hmin q hq) hr0
    rw [hlb]

/-! ### Sums of the concrete oracles, without deep evaluation -/

lemma sum_map_range_succ (f : Nat → Int) (n : Nat) :
    ((List.range (n + 1)).map f).sum = ((List.range n).map f).sum + f n := by
  rw [List.range_succ, List.map_append, List.map_singleton, List.sum_append,
    List.sum_singleton]

lemma oneAt_sum (j : Nat) (a b : Int) :
    ∀ n, ((List.range n).map (oneAt j a b)).sum
      = b * (n : Int) + (if j < n then a - b else 0) := by
  intro n
  induction n with
  | zero => simp
  | succ m ih =>
    rw [sum_map_range_succ, ih]
    unfold oneAt
    by_cases h : m = j
    · subst h
      rw [if_neg (by omega), if_pos rfl, if_pos (by omega)]
      push_cast
      ring
    · rw [if_neg h]
      by_cases h2 : j < m
      · rw [if_pos h2, if_pos (by omega)]
        push_cast
        ring
      · rw [if_neg h2, if_neg (by omega)]
        push_cast
        ring

lemma oneAt_nonneg (j : Nat) (a b : Int) (ha : 0 ≤ a) (hb : 0 ≤ b) :
    ∀ x, x ∈ (List.range 256).map (oneAt j a b) → 0 ≤ x := by
  intro x hx
  rcases List.mem_map.mp hx with ⟨i, _, rfl⟩
  unfold oneAt
  split <;> assumption

lemma sum_fastAt (j : Nat) (hj : j < 256) :
    ((List.range 256).map (oneAt j 0 100)).sum = 25500 := by
  rw [oneAt_sum, if_pos hj]
  norm_num

lemma t_avg_fastAt (j : Nat) (hj : j < 256) : t_avg (oneAt j 0 100) = 99 := by
  unfold t_avg accumInt
  rw [accum_eq_sum _ 0 le_rfl (oneAt_nonneg j 0 100 le_rfl (by norm_num))
    (by rw [zero_add, sum_fastAt j hj]; norm_num), zero_add, sum_fastAt j hj]
  decide

lemma t_avg_latFast : t_avg latFast = 99 := t_avg_fastAt 0 (by omega)

lemma t_avg_latFast5 : t_avg latFast5 = 99 := t_avg_fastAt 5 (by omega)

lemma sum_latSlow : ((List.range 256).map latSlow).sum = 25600 := by
  have h : ∀ n, ((List.range n).map latSlow).sum = 100 * (n : Int) := by
    intro n
    induction n with
    | zero => simp
    | succ m ih =>
      rw [sum_map_range_succ, ih]
      have : latSlow m = 100 := rfl
      rw [this]
      push_cast
      ring
  rw [h 256]
  norm_num

lemma t_avg_latSlow : t_avg latSlow = 100 := by
  unfold t_avg accumInt
  rw [accum_eq_sum _ 0 le_rfl
    (fun x hx => by
      rcases List.mem_map.mp hx with ⟨i, _, rfl⟩
      norm_num [latSlow])
    (by rw [zero_add, sum_latSlow]; norm_num), zero_add, sum_latSlow]
  decide

lemma accumInt_append_single (l : List Int) (x : Int) :
    accumInt (l ++ [x]) = wrap32 (accumInt l + x) := by
  unfold accumInt
  rw [List.foldl_append, List.foldl_cons, List.foldl_nil]

lemma accumInt_latBig : ∀ n, 1 ≤ n →
    accumInt ((List.range n).map latBig) = -2147483648 := by
  intro n hn
  induction n with
  | zero => omega
  | succ m ih =>
    rcases Nat.eq_zero_or_pos m with hm | hm
    · subst hm
      decide
    · rw [List.range_succ, List.map_append, List.map_singleton,
        accumInt_append_single, ih hm]
      have hb : latBig m = 0 := by
        unfold latBig oneAt
        rw [if_neg (by omega)]
      rw [hb]
      decide

lemma t_avg_latBig : t_avg latBig = -8388608 := by
  unfold t_avg
  rw [accumInt_latBig 256 (by omega)]
  decide

lemma specMean_latBig : specMean latBig = 8388608 := by
  have h : ((List.range 256).map latBig).sum = 2147483648 := by
    unfold latBig
    rw [oneAt_sum, if_pos (by omega)]
    norm_num
  unfold specMean
  rw [h]
  decide

/-! ### Behaviour on the concrete oracles -/

lemma exitCond_const_zero : ¬ exitCond (fun _ => (0 : Int)) := by
  intro h
  unfold exitCond at h
  rw [topTwoN_caseA _ 256 (by omega) (fun i _ => le_refl _)] at h
  dsimp only at h
  linarith

lemma scoresAfter_slow (pd0 : Nat) : ∀ r, scoresAfter pd0 latFamSlow r = fun _ => 0
  | 0 => rfl
  | r + 1 => by
    have ih := scoresAfter_slow pd0 r
    funext i
    show roundScores pd0 (latFamSlow r) (scoresAfter pd0 latFamSlow r) i = 0
    rw [ih]
    have hl : latFamSlow r = latSlow := rfl
    unfold roundScores
    rw [hl, t_avg_latSlow]
    have : ¬ (i < 256 ∧ latSlow i * 2 < 100 ∧ i ≠ pd0) := by
      rintro ⟨_, hlt, _⟩
      have : latSlow i = 100 := rfl
      omega
    rw [if_neg this]

lemma noexit_slow (pd0 : Nat) :
    ∀ r, r < 1000 → ¬ exitCond (scoresAfter pd0 latFamSlow (r + 1)) := by
  intro r _ h
  rw [scoresAfter_slow pd0 (r + 1)] at h
  exact exitCond_const_zero h

lemma scoresAfter_fast :
    ∀ r : Nat, scoresAfter 1 latFamFast r = fun i => if i = 0 then (r : Int) else 0
  | 0 => by
    funext i
    by_cases h : i = 0 <;> simp [scoresAfter, h]
  | r + 1 => by
    have ih := scoresAfter_fast r
    funext i
    show roundScores 1 (latFamFast r) (scoresAfter 1 latFamFast r) i = _
    rw [ih]
    have hl : latFamFast r = latFast := rfl
    unfold roundScores
    rw [hl, t_avg_latFast]
    by_cases h : i = 0
    · subst h
      have hc : (0 : Nat) < 256 ∧ latFast 0 * 2 < 99 ∧ (0 : Nat) ≠ 1 := by
        refine ⟨by omega, ?_, by omega⟩
        have : latFast 0 = 0 := rfl
        omega
      rw [if_pos hc]
      norm_num
    · have hc : ¬ (i < 256 ∧ latFast i * 2 < 99 ∧ i ≠ 1) := by
        rintro ⟨_, hlt, _⟩
        have : latFast i = 100 := by simp [latFast, oneAt, h]
        omega
      rw [if_neg hc]
      simp [h]

lemma topTwoN_fast (r : Nat) :
    topTwoN (scoresAfter 1 latFamFast r) 256 = (0, 0) := by
  rw [scoresAfter_fast r]
  apply topTwoN_caseA _ 256 (by omega)
  intro i hi
  by_cases h : i = 0 <;> simp [h]

lemma noexit_fast : ∀ r, r < 1000 → ¬ exitCond (scoresAfter 1 latFamFast (r + 1)) := by
  intro r _ h
  unfold exitCond at h
  rw [topTwoN_fast (r + 1)] at h
  rw [scoresAfter_fast (r + 1)] at h
  dsimp only at h
  rw [if_pos rfl] at h
  have : (0 : Int) ≤ ((r + 1 : Nat) : Int) := Int.natCast_nonneg _
  linarith

lemma leak_fast : leak_byte 1 latFamFast = (0, false) := by
  have h : leak_byte 1 latFamFast =
      ((topTwoN (scoresAfter 1 latFamFast 1000) 256).1, false) :=
    leakAux_no_exit 1 latFamFast 1000 0 (0, 0) (by omega) (by omega)
      (fun r _ hr => noexit_fast r hr)
  rw [h, topTwoN_fast 1000]

lemma specGap_fast : specGap (scoresAfter 1 latFamFast 201) := by
  rw [scoresAfter_fast 201]
  refine ⟨0, 1, by omega, by omega, by omega, ?_, ?_, ?_⟩
  · intro i _
    by_cases h : i = 0 <;> simp [h]
  · intro i _ hne
    simp [hne]
  · norm_num

/-! ### The shuffle permutation -/

lemma shuffled_inj (i i2 : Nat) (h1 : i < 256) (h2 : i2 < 256)
    (h : shuffled i = shuffled i2) : i = i2 := by
  unfold shuffled at h
  omega

lemma shuffled_surj (j : Nat) (hj : j < 256) :
    shuffled ((23 * (j + 243)) % 256) = j := by
  unfold shuffled
  omega

lemma mem_visitOrder (j : Nat) (hj : j < 256) : j ∈ visitOrder := by
  unfold visitOrder
  exact List.mem_map.mpr ⟨(23 * (j + 243)) % 256,
    List.mem_range.mpr (by omega), shuffled_surj j hj⟩

lemma visitOrder_nodup : visitOrder.Nodup := by
  unfold visitOrder
  refine List.Nodup.map_on ?_ (List.nodup_range 256)
  intro i hi i2 hi2 h
  exact shuffled_inj i i2 (List.mem_range.mp hi) (List.mem_range.mp hi2) h

lemma count_visitOrder (j : Nat) (hj : j < 256) : List.count j visitOrder = 1 :=
  List.count_eq_one_of_mem visitOrder_nodup (mem_visitOrder j hj)

/-! ### Counting the target iterations of the training loop -/

lemma filter_mult10 : ∀ n,
    ((List.range (10 * n)).filter fun i => decide ((i + 1) % 10 = 0)).length = n := by
  intro n
  induction n with
  | zero => rfl
  | succ m ih =>
    have h10 : 10 * (m + 1) = 10 * m + 10 := by ring
    rw [h10, List.range_add, List.filter_append, List.length_append, ih]
    have hone : ((List.map (fun x => 10 * m + x) (List.range 10)).filter
        fun i => decide ((i + 1) % 10 = 0)).length = 1 := by
      have hc : ∀ x ∈ List.range 10,
          ((fun i => decide ((i + 1) % 10 = 0)) ∘ fun x => 10 * m + x) x = true ↔
            (fun x => decide ((x + 1) % 10 = 0)) x = true := by
        intro x _
        simp only [Function.comp, decide_eq_true_eq]
        omega
      rw [← List.countP_eq_length_filter, List.countP_map, List.countP_congr hc]
      decide
    rw [hone]

lemma topTwoN_sc1 : topTwoN sc1 256 = (0, 0) := by
  apply topTwoN_caseA _ 256 (by omega)
  intro i _
  unfold sc1
  by_cases h : i = 0 <;> simp [h]

/-! ## The claims -/

/-- Claim C1, counterexample: with `private_data[0] = 5` the scoring pass of
lines 102–104 increments index 0 when line 0 is anomalously fast, and does
not increment index 5 even when line 5 is anomalously fast, contradicting
the claim that index 0 is the excluded index. -/
theorem C1_counterexample :
    roundScores 5 latFast (fun _ => (0 : Int)) 0 = 1
    ∧ latFast5 5 * 2 < t_avg latFast5
    ∧ roundScores 5 latFast5 (fun _ => (0 : Int)) 5 = 0 := by
  refine ⟨?_, ?_, ?_⟩
  · unfold roundScores
    rw [t_avg_latFast]
    have h0 : latFast 0 = 0 := rfl
    rw [if_pos ⟨by omega, by rw [h0]; norm_num, by omega⟩]
    norm_num
  · have h5 : latFast5 5 = 0 := by
      unfold latFast5 oneAt
      rw [if_pos rfl]
    rw [t_avg_latFast5, h5]
    norm_num
  · unfold roundScores
    exact if_neg (fun hc => hc.2.2 rfl)

/-- Claim C1, amended: in every round each candidate index whose doubled
latency is below the round's mean has its score incremented by exactly 1,
except the index equal to the byte value `private_data[0]`, which never
accumulates score; indices that are not anomalously fast keep their score. -/
theorem C1_scoring (pd0 : Nat) (lat : Nat → Int) (s : Nat → Int) (i : Nat)
    (hi : i < 256) :
    (lat i * 2 < t_avg lat ∧ i ≠ pd0 → roundScores pd0 lat s i = s i + 1)
    ∧ (¬ lat i * 2 < t_avg lat → roundScores pd0 lat s i = s i)
    ∧ roundScores pd0 lat s pd0 = s pd0 := by
  unfold roundScores
  exact ⟨fun h => if_pos ⟨hi, h.1, h.2⟩, fun h => if_neg (fun hc => h hc.2.1),
    if_neg (fun hc => hc.2.2 rfl)⟩

/-- Witness for C1_scoring at a concrete round. -/
theorem C1_scoring_witness :
    roundScores 5 latFast (fun _ => (0 : Int)) 0 = 1
    ∧ roundScores 5 latFast (fun _ => (0 : Int)) 5 = 0 :=
  ⟨(C1_scoring 5 latFast (fun _ => (0 : Int)) 0 (by omega)).1
      ⟨by rw [t_avg_latFast]; norm_num [latFast, oneAt], by omega⟩,
    (C1_scoring 5 latFast (fun _ => (0 : Int)) 5 (by omega)).2.2⟩

/-- Claim C2, counterexample: on the score vector with its (unique) maximum
at index 0, `get_top_two` returns both iterators equal to index 0, so the
second-best pointer is not a maximal element of the remaining entries. -/
theorem C2_counterexample :
    topTwoN sc1 256 = (0, 0) ∧ ¬ specTopTwo sc1 (topTwoN sc1 256) := by
  refine ⟨topTwoN_sc1, ?_⟩
  rw [topTwoN_sc1]
  rintro ⟨_, hExcl⟩
  exact hExcl.2.1 rfl

/-- Claim C2, amended: the best pointer always designates the earliest
maximal score; whenever some index other than 0 strictly exceeds the score
of index 0, the pair satisfies the spec's full top-two property; when no
entry strictly exceeds entry 0, get_top_two returns the pair (0, 0). -/
theorem C2_topTwo (v : Nat → Int) :
    isEarliestMax v 256 (topTwoN v 256).1
    ∧ ((∃ i, 0 < i ∧ i < 256 ∧ v 0 < v i) → specTopTwo v (topTwoN v 256))
    ∧ ((∀ i, i < 256 → v i ≤ v 0) → topTwoN v 256 = (0, 0)) := by
  refine ⟨topTwoN_fst_max v 256 (by omega), ?_,
    fun h => topTwoN_caseA v 256 (by omega) h⟩
  rintro ⟨i, _, hi, hv⟩
  obtain ⟨_, hMax, hExcl⟩ := topTwoN_caseB v 256 (by omega) ⟨i, hi, hv⟩
  exact ⟨hMax, hExcl⟩

/-- Witness for C2_topTwo at two concrete score vectors. -/
theorem C2_topTwo_witness :
    specTopTwo vW (topTwoN vW 256) ∧ topTwoN latSlow 256 = (0, 0) :=
  ⟨(C2_topTwo vW).2.1 ⟨2, by omega, by omega, by norm_num [vW]⟩,
    (C2_topTwo latSlow).2.2 (fun i _ => le_refl _)⟩

/-- Claim C3, counterexample: with `private_data[0] = 5` replaced by 1 and a
timing oracle that makes only index 0 score, the score vector after round
201 satisfies the spec's gap condition best > 2*second + 200, yet the
procedure does not return on that round: it runs to the 1000-round cap and
returns the low-confidence result. -/
theorem C3_counterexample :
    specGap (scoresAfter 1 latFamFast 201) ∧ leak_byte 1 latFamFast = (0, false) :=
  ⟨specGap_fast, leak_fast⟩

/-- Claim C3, amended: the early exit fires on some round iff the code's
check on the tracked pair passes on some round; and on nonnegative score
vectors that check passes iff some index other than 0 strictly exceeds
entry 0 and the true best exceeds twice the true second-best plus 200. -/
theorem C3_exit (pd0 : Nat) (lat : Nat → Nat → Int) :
    ((leak_byte pd0 lat).2 = true ↔
      ∃ r, r < 1000 ∧ exitCond (scoresAfter pd0 lat (r + 1)))
    ∧ ∀ s : Nat → Int, (∀ i, i < 256 → 0 ≤ s i) →
        (exitCond s ↔ (∃ i, 0 < i ∧ i < 256 ∧ s 0 < s i) ∧ specGap s) :=
  ⟨leak_byte_flag pd0 lat, fun s hnn => ⟨fun h => exitCond_specGap s hnn h,
    fun h => specGap_exitCond s hnn h.1 h.2⟩⟩

/-- Witness for C3_exit at concrete inputs. -/
theorem C3_exit_witness :
    ((leak_byte 1 latFamSlow).2 = true ↔
      ∃ r, r < 1000 ∧ exitCond (scoresAfter 1 latFamSlow (r + 1)))
    ∧ (exitCond latSlow ↔
        (∃ i, 0 < i ∧ i < 256 ∧ latSlow 0 < latSlow i) ∧ specGap latSlow) :=
  ⟨(C3_exit 1 latFamSlow).1,
    (C3_exit 1 latFamSlow).2 latSlow (fun i _ => by norm_num [latSlow])⟩

/-- Claim C4: if the exit check never passes, the loop runs all 1000 rounds
and returns the index tracked as best — an earliest maximal score of the
final score vector — with the distinct low-confidence flag; and a
high-confidence return implies the spec's gap condition held on some round. -/
theorem C4_cap (pd0 : Nat) (lat : Nat → Nat → Int)
    (hno : ∀ r, r < 1000 → ¬ exitCond (scoresAfter pd0 lat (r + 1))) :
    leak_byte pd0 lat = ((topTwoN (scoresAfter pd0 lat 1000) 256).1, false)
    ∧ isEarliestMax (scoresAfter pd0 lat 1000) 256 (leak_byte pd0 lat).1
    ∧ ∀ (pd1 : Nat) (lat1 : Nat → Nat → Int), (leak_byte pd1 lat1).2 = true →
        ∃ r, r < 1000 ∧ specGap (scoresAfter pd1 lat1 (r + 1)) := by
  have hlb : leak_byte pd0 lat = ((topTwoN (scoresAfter pd0 lat 1000) 256).1, false) :=
    leakAux_no_exit pd0 lat 1000 0 (0, 0) (by omega) (by omega)
      (fun r _ hr => hno r hr)
  refine ⟨hlb, ?_, ?_⟩
  · have h2 := topTwoN_fst_max (scoresAfter pd0 lat 1000) 256 (by omega)
    rw [hlb]
    dsimp only
    exact h2
  · intro pd1 lat1 h
    obtain ⟨r, hr, hex⟩ := (leak_byte_flag pd1 lat1).mp h
    exact ⟨r, hr,
      (exitCond_specGap _ (fun i _ => scoresAfter_nonneg pd1 lat1 (r + 1) i) hex).2⟩

/-- Witness for C4_cap on the all-slow oracle, where no round ever exits. -/
theorem C4_cap_witness :
    leak_byte 1 latFamSlow = ((topTwoN (scoresAfter 1 latFamSlow 1000) 256).1, false)
    ∧ isEarliestMax (scoresAfter 1 latFamSlow 1000) 256 (leak_byte 1 latFamSlow).1 :=
  ⟨(C4_cap 1 latFamSlow (noexit_slow 1)).1, (C4_cap 1 latFamSlow (noexit_slow 1)).2.1⟩

/-- Claim C5: the visit map i ↦ (167 i + 13) mod 256 is a permutation of
0..255 (injective, surjective, each entry visited exactly once), it is not
the identity order, the same order is used on every round, and after the
measurement pass every timing entry below 256 holds its own latency. -/
theorem C5_shuffle :
    (∀ j, j < 256 → List.count j visitOrder = 1)
    ∧ (∀ i i2, i < 256 → i2 < 256 → shuffled i = shuffled i2 → i = i2)
    ∧ (∀ j, j < 256 → ∃ i, i < 256 ∧ shuffled i = j)
    ∧ (∃ i, i < 256 ∧ shuffled i ≠ i)
    ∧ (∀ run, visitOrderAt run = visitOrderAt 0)
    ∧ (∀ lat : Nat → Int, ∀ j, j < 256 → timesAfter lat j = lat j) := by
  refine ⟨count_visitOrder, shuffled_inj, ?_, ?_, fun _ => rfl, ?_⟩
  · intro j hj
    exact ⟨(23 * (j + 243)) % 256, by omega, shuffled_surj j hj⟩
  · refine ⟨1, by omega, ?_⟩
    unfold shuffled
    omega
  · intro lat j hj
    exact foldl_update_mem lat visitOrder _ j (mem_visitOrder j hj)

/-- Witness for C5_shuffle at concrete indices. -/
theorem C5_shuffle_witness :
    List.count 3 visitOrder = 1 ∧ visitOrderAt 7 = visitOrderAt 0
    ∧ timesAfter latFast 5 = latFast 5 :=
  ⟨C5_shuffle.1 3 (by omega), C5_shuffle.2.2.2.2.1 7,
    C5_shuffle.2.2.2.2.2 latFast 5 (by omega)⟩

/-- Claim C6: within one invocation every candidate's cumulative score is
monotonically non-decreasing across rounds. -/
theorem C6_monotone (pd0 : Nat) (lat : Nat → Nat → Int) (r r2 i : Nat)
    (h : r ≤ r2) : scoresAfter pd0 lat r i ≤ scoresAfter pd0 lat r2 i := by
  induction r2, h using Nat.le_induction with
  | base => exact le_refl _
  | succ n hn ih =>
    exact le_trans ih (roundScores_ge pd0 (lat n) (scoresAfter pd0 lat n) i)

/-- Witness for C6_monotone at concrete rounds. -/
theorem C6_monotone_witness :
    scoresAfter 1 latFamFast 1 0 ≤ scoresAfter 1 latFamFast 3 0 :=
  C6_monotone 1 latFamFast 1 3 0 (by omega)

/-- Claim C7, counterexample: the guard is a signed comparison, so the
architecturally selected index −1 (a target index ≠ 0) passes the check
`local_index < *slow_size` and the guarded read does execute. -/
theorem C7_counterexample :
    local_index (-1) 9 < slow_size ∧ local_index (-1) 9 ≠ 0 := by
  unfold local_index slow_size
  norm_num

/-- Claim C7, amended: for every positive target index the architectural
check fails exactly on the iterations that select the target, so the
guarded forced_read executes only with the selected index 0. -/
theorem C7_arch (index : Int) (hpos : 0 < index) (i : Nat) :
    (local_index index i < slow_size ↔ (i + 1) % 10 ≠ 0)
    ∧ (local_index index i < slow_size → local_index index i = 0) := by
  unfold local_index slow_size
  by_cases h : (i + 1) % 10 = 0
  · rw [if_pos h]
    refine ⟨⟨fun hlt => by omega, fun hne => absurd h hne⟩, fun hlt => by omega⟩
  · rw [if_neg h]
    exact ⟨⟨fun _ => h, fun _ => by omega⟩, fun _ => rfl⟩

/-- Witness for C7_arch at a concrete positive index. -/
theorem C7_arch_witness :
    (local_index 4096 3 < slow_size ↔ (3 + 1) % 10 ≠ 0)
    ∧ (local_index 4096 3 < slow_size → local_index 4096 3 = 0) :=
  C7_arch 4096 (by norm_num) 3

/-- Claim C8, counterexample: a valid 64-bit sample vector (one sample of
2^31 cycles) on which the code's mean is −8388608 while the exact integer
quotient of the true sum is 8388608: the `int` accumulator wraps. -/
theorem C8_counterexample :
    t_avg latBig = -8388608 ∧ specMean latBig = 8388608
    ∧ t_avg latBig ≠ specMean latBig := by
  refine ⟨t_avg_latBig, specMean_latBig, ?_⟩
  rw [t_avg_latBig, specMean_latBig]
  norm_num

/-- Claim C8, amended: the code's per-round mean equals the exact integer
quotient of the sum of the 256 samples by 256 whenever the samples are
nonnegative and their exact sum fits in a 32-bit signed int. -/
theorem C8_mean (lat : Nat → Int) (hnn : ∀ i, i < 256 → 0 ≤ lat i)
    (hs : ((List.range 256).map lat).sum < 2147483648) :
    t_avg lat = specMean lat := by
  unfold t_avg specMean accumInt
  have hx : ∀ x, x ∈ (List.range 256).map lat → 0 ≤ x := by
    intro x hx
    rcases List.mem_map.mp hx with ⟨i, hi, rfl⟩
    exact hnn i (List.mem_range.mp hi)
  rw [accum_eq_sum _ 0 le_rfl hx (by rw [zero_add]; exact hs), zero_add]

/-- Witness for C8_mean on the all-slow sample vector. -/
theorem C8_mean_witness : t_avg latSlow = specMean latSlow :=
  C8_mean latSlow (fun i _ => by norm_num [latSlow])
    (by rw [sum_latSlow]; norm_num)

/-- Claim C9: the training loop runs exactly 500 iterations; the selected
index equals the target exactly on the iterations whose 1-based position is
a multiple of 10 (of which there are 50) and 0 on the others. -/
theorem C9_training (index : Int) (hne : index ≠ 0) :
    trainIters.length = 500
    ∧ (∀ i, i ∈ trainIters →
        (local_index index i = index ↔ (i + 1) % 10 = 0)
        ∧ ((i + 1) % 10 ≠ 0 → local_index index i = 0))
    ∧ (trainIters.filter fun i => decide ((i + 1) % 10 = 0)).length = 50 := by
  refine ⟨List.length_range 500, ?_, filter_mult10 50⟩
  intro i _
  unfold local_index
  by_cases h : (i + 1) % 10 = 0
  · rw [if_pos h]
    exact ⟨⟨fun _ => h, fun _ => rfl⟩, fun hne2 => absurd h hne2⟩
  · rw [if_neg h]
    exact ⟨⟨fun h0 => absurd h0.symm hne, fun h0 => absurd h0 h⟩, fun _ => rfl⟩

/-- Witness for C9_training at a concrete nonzero target index. -/
theorem C9_training_witness :
    trainIters.length = 500
    ∧ (∀ i, i ∈ trainIters →
        (local_index 4096 i = 4096 ↔ (i + 1) % 10 = 0)
        ∧ ((i + 1) % 10 ≠ 0 → local_index 4096 i = 0))
    ∧ (trainIters.filter fun i => decide ((i + 1) % 10 = 0)).length = 50 :=
  C9_training 4096 (by norm_num)

/-- Claim C10: each score grows by at most 1 per round, stays nonnegative
and bounded by the number of completed rounds, so the early-exit condition
cannot hold before 201 rounds have completed. -/
theorem C10_bound (pd0 : Nat) (lat : Nat → Nat → Int) (r i : Nat) (hi : i < 256)
    (hr : r ≤ 200) :
    scoresAfter pd0 lat (r + 1) i ≤ scoresAfter pd0 lat r i + 1
    ∧ 0 ≤ scoresAfter pd0 lat r i
    ∧ scoresAfter pd0 lat r i ≤ (r : Int)
    ∧ ¬ exitCond (scoresAfter pd0 lat r) :=
  ⟨roundScores_le pd0 (lat r) (scoresAfter pd0 lat r) i,
    scoresAfter_nonneg pd0 lat r i, scoresAfter_le_int pd0 lat r i,
    no_early_exit pd0 lat r hr⟩

/-- Witness for C10_bound at round 0. -/
theorem C10_bound_witness :
    scoresAfter 1 latFamSlow 1 0 ≤ scoresAfter 1 latFamSlow 0 0 + 1
    ∧ 0 ≤ scoresAfter 1 latFamSlow 0 0
    ∧ scoresAfter 1 latFamSlow 0 0 ≤ ((0 : Nat) : Int)
    ∧ ¬ exitCond (scoresAfter 1 latFamSlow 0) :=
  C10_bound 1 latFamSlow 0 0 (by omega) (by omega)

end SpectreLeak
